import Mathlib

/-!
Verification development for the nanobot orchestration core.

This file shallowly embeds the parts of the Python sources that the
checked properties are about:

* `nanobot/jarvis/orchestrator.py` — `Orchestrator._parse_task_graph`,
  `Orchestrator._dispatch`, `Orchestrator._merge`;
* `nanobot/jarvis/pool.py` — `AgentPool.run_agent` and `AgentResult`;
* `nanobot/jarvis/memory.py` — `SharedMemory.write`;
* `nanobot/agent/swarm.py` — `Swarm.run`, `Swarm._execute_function`,
  `Swarm._handle_result`, `Agent`, `SwarmResult`.

External collaborators (the LLM provider, the `json_repair` library, the
tool implementations, the external coding CLI, the event-loop clock) are
not part of this repository; they are modelled as explicit parameters
(functions or outcome values) of the embedded operations, so that every
theorem quantifies over all of their possible behaviours.

Python dictionaries are modelled as insertion-ordered association lists
(`List (String × _)`), Python sets of task ids as lists without
duplicates, and `asyncio` concurrency is flattened to the sequential
order in which the coordinating coroutine observes the results (the
dispatcher gathers a whole wave before touching shared state, so this
is observationally faithful for the stated properties).
-/

/-- A tool/function invocation requested by the model
(provider-normalized `ToolCall`: id, function name, serialized args). -/
structure ToolCall where
  id : String
  name : String
  args : String
deriving DecidableEq

/-- A conversation message.  Mirrors the Python message dicts used in
`swarm.py` and `orchestrator.py`: role-tagged, with tool-call payloads
on assistant messages and `tool_call_id`/`name` on tool messages. -/
inductive Msg where
  | system (content : String)
  | user (content : String)
  | assistant (content : String) (tool_calls : List ToolCall)
  | tool (tool_call_id : String) (name : String) (content : String)
deriving DecidableEq

/-- First-match association-list lookup: the model of Python
`dict[key]` access over an insertion-ordered list of key/value pairs. -/
def alookup {β : Type} : List (String × β) → String → Option β
  | [], _ => none
  | (k, v) :: rest, key => if k = key then some v else alookup rest key

/-- The keys of an association list, in insertion order. -/
def keysOf {β : Type} (l : List (String × β)) : List String := l.map Prod.fst

/-- Python `dict` assignment `m[k] = v`: overwrite in place if the key
exists, else append at the end (insertion order preserved). -/
def dictSet {β : Type} (m : List (String × β)) (k : String) (v : β) : List (String × β) :=
  if m.any (fun p => p.1 = k) then m.map (fun p => if p.1 = k then (k, v) else p)
  else m ++ [(k, v)]

/-! ## Jarvis data model (`pool.py`, `roles.py`, `orchestrator.py`) -/

/-- One entry of the task graph produced by `_parse_task_graph`
(`{"role": …, "task": …, "depends": […]}`). -/
structure TaskSpec where
  role : String
  task : String
  depends : List String
deriving DecidableEq

/-- The task graph: a Python dict from task id to task spec. -/
abbrev TaskGraph := List (String × TaskSpec)

/-- `AgentResult` from `pool.py`: the per-task execution record.
`duration_s` is a float in Python; it is modelled as an integer clock
difference since no claim depends on real arithmetic. -/
structure AgentResult where
  role : String
  task_id : String
  task : String
  output : String
  status : String
  duration_s : Int
deriving DecidableEq

/-- The fields of `RoleSpec` (`roles.py`) that the dispatcher and the
agent pool consult. -/
structure RoleSpec where
  name : String
  display_name : String
  use_claude_code : Bool
deriving DecidableEq

/-- Outcome of one `pool.run_agent` coroutine as observed through
`asyncio.gather(..., return_exceptions=True)`: either an `AgentResult`
or an exception object (carried as its text). -/
inductive ExecOutcome where
  | ok (r : AgentResult)
  | exn (msg : String)

/-! ## Wave dispatcher (`Orchestrator._dispatch`) -/

/-- `task_graph[tid]` lookup; the dispatcher only applies it to ids
drawn from `task_graph.keys()`, so the default is never reached there. -/
def specOf (g : TaskGraph) (tid : String) : TaskSpec :=
  (alookup g tid).getD ⟨"", "", []⟩

/-- Readiness test from `_dispatch`:
`all(d in completed for d in deps)` — mere presence of every dependency
in the completed map, regardless of the recorded status. -/
def readyPred (g : TaskGraph) (completed : List (String × AgentResult)) (tid : String) : Bool :=
  (specOf g tid).depends.all (fun d => (alookup completed d).isSome)

/-- Result recorded for an unknown role
(`AgentResult(..., output=f"Error: Unknown role '{...}'", status="error")`). -/
def unknownRoleResult (g : TaskGraph) (tid : String) : AgentResult :=
  { role := (specOf g tid).role, task_id := tid, task := (specOf g tid).task,
    output := "Error: Unknown role '" ++ (specOf g tid).role ++ "'",
    status := "error", duration_s := 0 }

/-- Result recorded when the gathered coroutine surfaced an exception
(`AgentResult(..., output=f"Error: {result}", status="error")`). -/
def execErrorResult (g : TaskGraph) (tid : String) (msg : String) : AgentResult :=
  { role := (specOf g tid).role, task_id := tid, task := (specOf g tid).task,
    output := "Error: " ++ msg, status := "error", duration_s := 0 }

/-- Whether the dispatcher finds the task's role in the role registry
(`self.roles.get(task_spec["role"])` is not `None`). -/
def knownRole (roles : String → Option RoleSpec) (g : TaskGraph) (tid : String) : Bool :=
  (roles (specOf g tid).role).isSome

/-- The completed-map entry for a ready task with a known role: run the
executor and record its result, mapping a raised exception to an
error-status result. -/
def runTask (roles : String → Option RoleSpec)
    (exec : RoleSpec → String → String → ExecOutcome)
    (g : TaskGraph) (tid : String) : AgentResult :=
  match roles (specOf g tid).role with
  | some role =>
    match exec role tid (specOf g tid).task with
    | .ok r => r
    | .exn msg => execErrorResult g tid msg
  | none => unknownRoleResult g tid

/-- State of the dispatch loop: the `completed` results dict, the
`pending` id set, plus an instrumentation list of the ids for which an
Agent-Executor coroutine was actually launched (the `coros` of each
wave, in launch order). -/
structure DispatchState where
  completed : List (String × AgentResult)
  pending : List String
  invoked : List String
deriving DecidableEq

/-- One iteration of the `while pending:` body once `ready` is known to
be non-empty: unknown-role tasks are completed immediately (in `ready`
order, during coroutine building), then the gathered coroutine results
are recorded (in launch order); every ready id leaves `pending`. -/
def dispatchWave (roles : String → Option RoleSpec)
    (exec : RoleSpec → String → String → ExecOutcome)
    (g : TaskGraph) (st : DispatchState) : DispatchState :=
  let ready := st.pending.filter (readyPred g st.completed)
  let unknowns := ready.filter (fun tid => !(knownRole roles g tid))
  let knowns := ready.filter (fun tid => knownRole roles g tid)
  { completed := st.completed
      ++ unknowns.map (fun tid => (tid, unknownRoleResult g tid))
      ++ knowns.map (fun tid => (tid, runTask roles exec g tid)),
    pending := st.pending.filter (fun tid => !(readyPred g st.completed tid)),
    invoked := st.invoked ++ knowns }

/-- The dispatch loop.  Fuel-indexed so the definition is structurally
recursive; `dispatchFull` supplies fuel `|ids| + 1`, which is shown
sufficient (each executed wave strictly shrinks `pending`, and the loop
exits as soon as `pending` is empty or no task is ready — the deadlock
`break`). -/
def dispatchLoopF (roles : String → Option RoleSpec)
    (exec : RoleSpec → String → String → ExecOutcome)
    (g : TaskGraph) : Nat → DispatchState → DispatchState
  | 0, st => st
  | Nat.succ fuel, st =>
    if st.pending.isEmpty then st
    else if (st.pending.filter (readyPred g st.completed)).isEmpty then st
    else dispatchLoopF roles exec g fuel (dispatchWave roles exec g st)

/-- `Orchestrator._dispatch`: completed map starts empty, pending is
initialized to all task ids. -/
def dispatchFull (roles : String → Option RoleSpec)
    (exec : RoleSpec → String → String → ExecOutcome)
    (g : TaskGraph) : DispatchState :=
  dispatchLoopF roles exec g (keysOf g).length.succ ⟨[], keysOf g, []⟩

/-- Every `TaskSpec` dependency names an existing task id. -/
def ClosedDeps (g : TaskGraph) : Prop :=
  ∀ p ∈ g, ∀ d ∈ p.2.depends, d ∈ keysOf g

instance : DecidablePred ClosedDeps := fun g =>
  inferInstanceAs (Decidable (∀ p ∈ g, ∀ d ∈ p.2.depends, d ∈ keysOf g))

/-- Acyclicity of the dependency relation, phrased as the existence of
a topological rank: every dependency of a task ranks strictly below the
task itself. -/
def Acyclic (g : TaskGraph) : Prop :=
  ∃ rank : String → Nat, ∀ p ∈ g, ∀ d ∈ p.2.depends, rank d < rank p.1

/-! ## Result merger (`Orchestrator._merge`)

`provider.chat` is an external collaborator; it is modelled as a
function from the outbound message list to a `ChatOutcome` — either a
returned response or a raised exception. -/

/-- The provider response shape consumed by the orchestrator
(`response.content`, `response.tool_calls`); `content` is `None`-able. -/
structure ChatResponse where
  content : Option String
  toolCalls : List ToolCall
deriving DecidableEq

/-- Outcome of an awaited `provider.chat(...)` call: a response, or an
exception propagating out of the await. -/
inductive ChatOutcome where
  | ok (r : ChatResponse)
  | exn (e : String)

/-- The status marker used in the merge prompt
(`"ok" if r.status == "ok" else "FAILED"`). -/
def statusIcon (r : AgentResult) : String :=
  if r.status = "ok" then "ok" else "FAILED"

/-- One `### Task …` block of the merge prompt.  The Python `:.1f`
float formatting of the duration is rendered via `toString` on the
integer model. -/
def resultBlock (tid : String) (r : AgentResult) : String :=
  "### Task " ++ tid ++ " [" ++ r.role ++ "] — " ++ statusIcon r
    ++ " (" ++ toString r.duration_s ++ "s)\n"
    ++ "**Assignment:** " ++ r.task ++ "\n\n"
    ++ "**Output:**\n" ++ r.output ++ "\n"

/-- Insertion into a ≤-sorted list of strings (model of Python
`sorted`). -/
def insertSorted (x : String) : List String → List String
  | [] => [x]
  | y :: ys => if x ≤ y then x :: y :: ys else y :: insertSorted x ys

/-- `sorted(results.keys())`. -/
def sortKeys (l : List String) : List String := l.foldr insertSorted []

/-- The synthesis prompt built by `_merge` for the multi-result case. -/
def mergePrompt (user_request : String) (results : List (String × AgentResult)) : String :=
  let blocks := (sortKeys (keysOf results)).map (fun tid =>
    match alookup results tid with
    | some r => resultBlock tid r
    | none => "")
  "You are synthesizing results from multiple AI agents into a final response for the user.\n\n"
    ++ "## Original User Request\n" ++ user_request ++ "\n\n"
    ++ "## Agent Results\n" ++ String.intercalate "---" blocks ++ "\n\n"
    ++ "## Instructions\n"
    ++ "1. Combine the agent outputs into a coherent, unified response\n"
    ++ "2. Highlight key findings, actions taken, and any issues\n"
    ++ "3. Be concise — remove redundancy across agents\n"
    ++ "4. If any agent failed, mention it and explain the impact\n"
    ++ "5. Format the response in clear markdown"

/-- The message list `_merge` sends to the provider. -/
def mergeMsgs (user_request : String) (results : List (String × AgentResult)) : List Msg :=
  [Msg.system "You are a results synthesizer. Produce a clear, unified report.",
   Msg.user (mergePrompt user_request results)]

/-- `Orchestrator._merge`, instrumented: the second component records
whether the synthesis model call was issued.  The returned
`Except String String` is `.error e` exactly when the body raises `e`
to the caller (`_merge` has no try/except around `provider.chat`). -/
def mergeT (chat : List Msg → ChatOutcome) (user_request : String)
    (_task_graph : TaskGraph) (results : List (String × AgentResult)) :
    Except String String × Bool :=
  if results.length = 1 then
    (Except.ok (((results.head?).map (fun p => p.2.output)).getD ""), false)
  else
    match chat (mergeMsgs user_request results) with
    | .exn e => (Except.error e, true)
    | .ok resp =>
      (Except.ok (match resp.content with
        | some c => if c = "" then "(Failed to synthesize results)" else c
        | none => "(Failed to synthesize results)"), true)

/-- `Orchestrator._merge` itself (result only). -/
def merge (chat : List Msg → ChatOutcome) (user_request : String)
    (task_graph : TaskGraph) (results : List (String × AgentResult)) :
    Except String String :=
  (mergeT chat user_request task_graph results).1

/-! ## Task-graph parser (`Orchestrator._parse_task_graph`)

The `json_repair.loads` call is an external library; it is modelled as
an abstract `loads : String → Option JsonVal` parameter (`none` models
a raised parse exception).  The string helpers below re-implement the
exact Python operations (`strip`, `startswith`, `split("\n", 1)[-1]`,
`rsplit("\x60\x60\x60", 1)[0]`, `endswith`) by structural recursion on
the character list, so they evaluate inside the kernel. -/

/-- A parsed JSON value (shape of what `json_repair.loads` returns). -/
inductive JsonVal where
  | null
  | bool (b : Bool)
  | num (n : Int)
  | str (s : String)
  | arr (xs : List JsonVal)
  | obj (fields : List (String × JsonVal))

/-- Drop leading whitespace from a character list. -/
def dropLeadingWs : List Char → List Char
  | [] => []
  | c :: cs => if c.isWhitespace then dropLeadingWs cs else c :: cs

/-- Python `str.strip()`: remove leading and trailing whitespace. -/
def pyStrip (s : String) : String :=
  ⟨dropLeadingWs ((dropLeadingWs s.data.reverse).reverse)⟩

/-- The backtick character, by code point. -/
def isBacktick (c : Char) : Bool := c.toNat = 96

/-- Does the character list begin with three backticks (a code fence)? -/
def startsWithFence : List Char → Bool
  | a :: b :: c :: _ => isBacktick a && isBacktick b && isBacktick c
  | _ => false

/-- The characters strictly after the first newline, if any. -/
def afterFirstNewline : List Char → Option (List Char)
  | [] => none
  | c :: cs => if c = '\n' then some cs else afterFirstNewline cs

/-- Python `text.split("\n", 1)[-1]`: everything after the first
newline; the whole string when it has no newline. -/
def dropFirstLine (s : String) : String :=
  match afterFirstNewline s.data with
  | some rest => ⟨rest⟩
  | none => s

/-- The characters strictly before the LAST occurrence of a triple
backtick, if one occurs. -/
def beforeLastFenceAux : List Char → Option (List Char)
  | [] => none
  | c :: cs =>
    match beforeLastFenceAux cs with
    | some pre => some (c :: pre)
    | none => if startsWithFence (c :: cs) then some [] else none

/-- Python `text.rsplit("\x60\x60\x60", 1)[0]`: the prefix before the
last fence; the whole string when no fence occurs. -/
def beforeLastFence (s : String) : String :=
  match beforeLastFenceAux s.data with
  | some pre => ⟨pre⟩
  | none => s

/-- The fence-stripping prelude of `_parse_task_graph`: strip, drop the
first line when the text starts with a fence, drop the last fence when
the (possibly shortened) text ends with one, strip again. -/
def stripFences (content : String) : String :=
  let text := pyStrip content
  let text := if startsWithFence text.data then dropFirstLine text else text
  let text := if startsWithFence text.data.reverse then beforeLastFence text else text
  pyStrip text

/-- Key-presence test on a parsed JSON object (`"role" in task`). -/
def hasKey (fields : List (String × JsonVal)) (k : String) : Bool :=
  fields.any (fun p => p.1 = k)

/-- Per-entry validation from `_parse_task_graph`: keep dict entries
carrying both a `role` and a `task` field, applying
`task.setdefault("depends", [])` (which appends the key when absent);
every other entry is dropped. -/
def validateEntry : String × JsonVal → Option (String × JsonVal)
  | (tid, JsonVal.obj fields) =>
    if hasKey fields "role" && hasKey fields "task" then
      some (tid, JsonVal.obj
        (if hasKey fields "depends" then fields
         else fields ++ [("depends", JsonVal.arr [])]))
    else none
  | _ => none

/-- What `_parse_task_graph` does with the value produced by
`json_repair.loads`: a parse exception or a non-dict value yields the
empty graph; a dict is filtered entry-wise. -/
def parseLoaded : Option JsonVal → List (String × JsonVal)
  | none => []
  | some (JsonVal.obj entries) => entries.filterMap validateEntry
  | some _ => []

/-- `Orchestrator._parse_task_graph`, abstract in the JSON reader. -/
def parse_task_graph (loads : String → Option JsonVal) (content : String) :
    List (String × JsonVal) :=
  parseLoaded (loads (stripFences content))

/-! ## Agent executor (`AgentPool.run_agent`, `SharedMemory.write`)

The two inner execution strategies (`_run_claude_code`,
`_run_llm_loop`) both reduce, as seen from `run_agent`, to one of three
outcomes: a produced output string, a propagated
`asyncio.TimeoutError`, or any other exception.  They are therefore
passed in as outcome values, one per mode; `run_agent` selects by the
role's `use_claude_code` flag.  The event-loop clock readings at entry
and at the point the duration is taken are the `start`/`finish`
parameters. -/

/-- Outcome of one inner execution (`_run_claude_code` or
`_run_llm_loop`) as observed by `run_agent`'s try/except. -/
inductive InnerOutcome where
  | ok (output : String)
  | timeout
  | exn (e : String)

/-- The artifact store: `SharedMemory`'s session directory as a map
from file name to file content. -/
structure MemState where
  files : List (String × String)
deriving DecidableEq

/-- `SharedMemory.write(agent_name, key, content)`: writes (and
overwrites) the file `f"{agent_name}.{key}.md"`. -/
def memWrite (m : MemState) (agent_name : String) (key : String) (content : String) : MemState :=
  ⟨dictSet m.files (agent_name ++ "." ++ key ++ ".md") content⟩

/-- `SharedMemory.read(agent_name, key)`. -/
def memRead (m : MemState) (agent_name : String) (key : String) : Option String :=
  alookup m.files (agent_name ++ "." ++ key ++ ".md")

/-- `AgentPool.run_agent`: select the mode by `role.use_claude_code`;
on a produced output, write it to shared memory under
`(role.name, task_id)` and return an ok result; on
`asyncio.TimeoutError`, return a timeout result; on any other
exception, return an error result.  The duration is recorded in every
branch; the artifact write happens only in the ok branch. -/
def run_agent (role : RoleSpec) (task_id : String) (task : String)
    (mem : MemState) (runCC : InnerOutcome) (runLLM : InnerOutcome)
    (start : Int) (finish : Int) : AgentResult × MemState :=
  let inner := if role.use_claude_code then runCC else runLLM
  match inner with
  | .ok output =>
    ({ role := role.name, task_id := task_id, task := task,
       output := output, status := "ok", duration_s := finish - start },
     memWrite mem role.name task_id output)
  | .timeout =>
    ({ role := role.name, task_id := task_id, task := task,
       output := "Agent timed out.", status := "timeout", duration_s := finish - start },
     mem)
  | .exn e =>
    ({ role := role.name, task_id := task_id, task := task,
       output := "Error: " ++ e, status := "error", duration_s := finish - start },
     mem)

/-! ## Conversation runtime (`Swarm.run`, `swarm.py`)

Agents are identified by name and by the list of `__name__`s of their
registered functions (the code looks handlers up by `f.__name__`).  The
behaviour of the handler bodies is an environment
`impl : name → args → ctx → RetVal`, and the provider is a script
`Nat → ProviderEvent` giving the outcome of the n-th `chat` call of the
run (an arbitrary script per theorem, so all provider behaviours are
covered).  Context values are strings; the code treats them opaquely. -/

/-- Shared context map (`context_variables`). -/
abbrev Ctx := List (String × String)

/-- `Agent` from `swarm.py`, with functions listed by `__name__`. -/
structure SAgent where
  name : String
  functions : List String
  model : Option String
deriving DecidableEq

/-- `SwarmResult`: value shown to the model, optional handoff target,
context delta. -/
structure SwarmResult where
  value : String
  agent : Option SAgent
  context_variables : Ctx
deriving DecidableEq

/-- A raw Python return value of a handler, as discriminated by
`Swarm._handle_result`: an already-normalized `SwarmResult`, a bare
`Agent` (handoff shortcut), or anything else (stringified). -/
inductive RetVal where
  | res (r : SwarmResult)
  | agent (a : SAgent)
  | plain (s : String)
deriving DecidableEq

/-- `Swarm._handle_result`. -/
def handle_result : RetVal → SwarmResult
  | .res r => r
  | .agent a =>
    { value := "\x7b\"handoff_to\": \"" ++ a.name ++ "\"\x7d",
      agent := some a, context_variables := [] }
  | .plain s => { value := s, agent := none, context_variables := [] }

/-- `dict.update` (last write wins, insertion order preserved). -/
def ctxUpdate (m : Ctx) (delta : Ctx) : Ctx :=
  delta.foldl (fun acc kv => dictSet acc kv.1 kv.2) m

/-- Outcome of the n-th provider call in a run: a response, or the
120-second `asyncio.wait_for` timeout firing. -/
inductive ProviderEvent where
  | ok (r : ChatResponse)
  | timeout
deriving DecidableEq

/-- The collaborators of one `Swarm.run`: handler behaviours and the
provider script. -/
structure SwarmCfg where
  impl : String → String → Ctx → RetVal
  script : Nat → ProviderEvent

/-- Processing of one tool call from the current response
(`_execute_function` + `_handle_result` + the per-call statements of
the loop body): look the name up in the CURRENT active agent's function
list (synthesizing error text when absent), append the tool message,
merge the context delta, and switch the active agent when the parsed
result carries a handoff target. -/
def execOne (cfg : SwarmCfg) (st : SAgent × Ctx × List Msg) (tc : ToolCall) :
    SAgent × Ctx × List Msg :=
  let raw : RetVal :=
    if st.1.functions.contains tc.name then cfg.impl tc.name tc.args st.2.1
    else .plain ("Error: function '" ++ tc.name ++ "' not found")
  let parsed := handle_result raw
  let hist := st.2.2 ++ [Msg.tool tc.id tc.name parsed.value]
  let ctx := ctxUpdate st.2.1 parsed.context_variables
  let agent := match parsed.agent with
    | some a => a
    | none => st.1
  (agent, ctx, hist)

/-- Sequential execution of all tool calls of one response, in model
order; later calls observe the agent switch and context updates of
earlier ones. -/
def execToolCalls (cfg : SwarmCfg) (tcs : List ToolCall)
    (st : SAgent × Ctx × List Msg) : SAgent × Ctx × List Msg :=
  tcs.foldl (execOne cfg) st

/-- The fallback message appended when the provider call times out. -/
def timeoutApology : Msg :=
  Msg.assistant "抱歉，AI 响应超时了，请稍后再试。" []

/-- The `while turns < max_turns` loop of `Swarm.run`, with `fuel` the
remaining turns and `idx` the index of the next provider call.  A
timeout appends the apology and breaks; a response without tool calls
appends the final assistant message and breaks; otherwise the assistant
tool-call message is appended, the calls are executed sequentially, and
the loop continues with the (possibly handed-off) active agent. -/
def runLoop (cfg : SwarmCfg) : Nat → Nat → (SAgent × Ctx × List Msg) →
    SAgent × Ctx × List Msg
  | 0, _, st => st
  | Nat.succ fuel, idx, st =>
    match cfg.script idx with
    | .timeout => (st.1, st.2.1, st.2.2 ++ [timeoutApology])
    | .ok resp =>
      if resp.toolCalls.isEmpty then
        (st.1, st.2.1, st.2.2 ++ [Msg.assistant (resp.content.getD "") []])
      else
        runLoop cfg fuel (idx + 1) (execToolCalls cfg resp.toolCalls
          (st.1, st.2.1, st.2.2 ++ [Msg.assistant (resp.content.getD "") resp.toolCalls]))

/-- `SwarmResponse`. -/
structure SwarmResponse where
  messages : List Msg
  agent : SAgent
  context_variables : Ctx
deriving DecidableEq

/-- `Swarm.run`: `history = list(messages)` (a copy, so the caller's
list is untouched), `ctx = deepcopy(context_variables)` (so the
caller's map is untouched), run the loop, and return
`history[init_len:]` — only the messages appended during the run. -/
def swarmRun (cfg : SwarmCfg) (agent : SAgent) (messages : List Msg)
    (context_variables : Ctx) (max_turns : Nat) : SwarmResponse :=
  ⟨(runLoop cfg max_turns 0 (agent, context_variables, messages)).2.2.drop messages.length,
   (runLoop cfg max_turns 0 (agent, context_variables, messages)).1,
   (runLoop cfg max_turns 0 (agent, context_variables, messages)).2.1⟩

/-! ## Concrete fixtures used by witnesses and counterexamples -/

/-- A catalog role in tool-loop mode. -/
def demoRole : RoleSpec := ⟨"researcher", "Researcher", false⟩

/-- A one-role catalog. -/
def demoRoles : String → Option RoleSpec := fun n =>
  if n = "researcher" then some demoRole else none

/-- An executor that always succeeds. -/
def demoExec : RoleSpec → String → String → ExecOutcome := fun role tid task =>
  .ok ⟨role.name, tid, task, "out-" ++ tid, "ok", 1⟩

/-- Scenario A graph: `t2` depends on `t1`. -/
def graphA : TaskGraph :=
  [("t1", ⟨"researcher", "a", []⟩), ("t2", ⟨"researcher", "b", ["t1"]⟩)]

/-- Scenario D graph: a two-cycle. -/
def graphCycle : TaskGraph :=
  [("t1", ⟨"a", "x", ["t2"]⟩), ("t2", ⟨"b", "y", ["t1"]⟩)]

/-- Scenario C graph, extended with a dependent of the unknown-role
task. -/
def graphGhost : TaskGraph :=
  [("t1", ⟨"ghost", "x", []⟩), ("t2", ⟨"researcher", "y", ["t1"]⟩)]

/-- An executor whose coroutine always raises. -/
def demoExecFail : RoleSpec → String → String → ExecOutcome := fun _ _ _ =>
  .exn "boom"

/-- A provider whose chat call raises. -/
def chatBoom : List Msg → ChatOutcome := fun _ => .exn "boom"

/-- A provider whose chat call returns a response with `content = None`. -/
def chatNone : List Msg → ChatOutcome := fun _ => .ok ⟨none, []⟩

/-- Two concrete task results for merge fixtures. -/
def resA : AgentResult := ⟨"researcher", "a", "ta", "outA", "ok", 1⟩

/-- Second merge fixture result. -/
def resB : AgentResult := ⟨"qa", "b", "tb", "outB", "error", 2⟩

/-- Swarm fixture: agent `A` registers both a handoff function and a
second function `f2`. -/
def agentA : SAgent := ⟨"A", ["go_b", "f2"], none⟩

/-- Swarm fixture: agent `B` registers no functions. -/
def agentB : SAgent := ⟨"B", [], none⟩

/-- Swarm fixture configuration: `go_b` hands off to `B`; `f2` returns
a plain value; the first model response requests `go_b` then `f2`, the
next response ends the turn. -/
def cfgC3 : SwarmCfg :=
  ⟨fun name _ _ => if name = "go_b" then .agent agentB else .plain "ran f2",
   fun idx => if idx = 0 then .ok ⟨some "", [⟨"1", "go_b", ""⟩, ⟨"2", "f2", ""⟩]⟩
              else .ok ⟨some "done", []⟩⟩

/-- Parser fixture: a constant JSON reader returning one valid entry
(no `depends` field) and one non-dict entry. -/
def loadsDemo : String → Option JsonVal := fun _ =>
  some (JsonVal.obj
    [("t1", JsonVal.obj [("role", JsonVal.str "coder"), ("task", JsonVal.str "do")]),
     ("t2", JsonVal.str "bad")])

/-! ## Association-list and filter helper lemmas -/

theorem alookup_append {β : Type} (a b : List (String × β)) (k : String) :
    alookup (a ++ b) k =
      match alookup a k with
      | some v => some v
      | none => alookup b k := by
  induction a with
  | nil => simp [alookup]
  | cons p rest ih =>
    obtain ⟨pk, pv⟩ := p
    by_cases h : pk = k
    · simp [alookup, h]
    · simpa [alookup, h] using ih

theorem alookup_eq_none_of_not_mem_keys {β : Type} {l : List (String × β)} {k : String}
    (h : k ∉ keysOf l) : alookup l k = none := by
  induction l with
  | nil => simp [alookup]
  | cons p rest ih =>
    obtain ⟨pk, pv⟩ := p
    simp only [keysOf, List.map_cons, List.mem_cons] at h
    push_neg at h
    simp [alookup, Ne.symm h.1, ih (by simpa [keysOf] using h.2)]

theorem alookup_isSome_of_mem_keys {β : Type} {l : List (String × β)} {k : String}
    (h : k ∈ keysOf l) : (alookup l k).isSome := by
  induction l with
  | nil => simp [keysOf] at h
  | cons p rest ih =>
    obtain ⟨pk, pv⟩ := p
    by_cases hk : pk = k
    · simp [alookup, hk]
    · simp only [keysOf, List.map_cons, List.mem_cons] at h
      rcases h with h | h
      · exact absurd h.symm hk
      · simpa [alookup, hk] using ih (by simpa [keysOf] using h)

theorem mem_keys_of_alookup_isSome {β : Type} {l : List (String × β)} {k : String}
    (h : (alookup l k).isSome) : k ∈ keysOf l := by
  by_contra hn
  rw [alookup_eq_none_of_not_mem_keys hn] at h
  simp at h

theorem mem_of_alookup_eq_some {β : Type} {l : List (String × β)} {k : String} {v : β}
    (h : alookup l k = some v) : (k, v) ∈ l := by
  induction l with
  | nil => simp [alookup] at h
  | cons p rest ih =>
    obtain ⟨pk, pv⟩ := p
    by_cases hk : pk = k
    · subst hk
      simp [alookup] at h
      simp [h]
    · simp only [alookup, if_neg hk] at h
      exact List.mem_cons_of_mem _ (ih h)

theorem alookup_eq_some_of_mem_nodup {β : Type} {l : List (String × β)} {k : String} {v : β}
    (hnd : (keysOf l).Nodup) (hm : (k, v) ∈ l) : alookup l k = some v := by
  induction l with
  | nil => simp at hm
  | cons p rest ih =>
    obtain ⟨pk, pv⟩ := p
    simp only [keysOf, List.map_cons, List.nodup_cons] at hnd
    rcases List.mem_cons.mp hm with h | h
    · have hk : k = pk := congrArg Prod.fst h
      have hv : v = pv := congrArg Prod.snd h
      simp [alookup, hk, hv]
    · have hk : pk ≠ k := by
        intro he
        subst he
        exact hnd.1 (by simpa [keysOf] using List.mem_map_of_mem Prod.fst h)
      simpa [alookup, hk] using ih (by simpa [keysOf] using hnd.2) h

theorem alookup_map_self {β : Type} {l : List String} {k : String} (f : String → β)
    (h : k ∈ l) : alookup (l.map (fun t => (t, f t))) k = some (f k) := by
  induction l with
  | nil => simp at h
  | cons x rest ih =>
    by_cases hk : x = k
    · simp [alookup, hk]
    · rcases List.mem_cons.mp h with h' | h'
      · exact absurd h'.symm hk
      · simpa [alookup, hk] using ih h'

theorem keysOf_append {β : Type} (a b : List (String × β)) :
    keysOf (a ++ b) = keysOf a ++ keysOf b := by
  simp [keysOf]

theorem keysOf_map_self {β : Type} (l : List String) (f : String → β) :
    keysOf (l.map (fun t => (t, f t))) = l := by
  induction l with
  | nil => rfl
  | cons x rest ih => simp [keysOf] at ih ⊢; exact ih

theorem filter_not_length_lt {α : Type} (l : List α) (p : α → Bool)
    (h : l.filter p ≠ []) : (l.filter (fun a => !p a)).length < l.length := by
  induction l with
  | nil => simp at h
  | cons x rest ih =>
    by_cases hx : p x
    · have : (List.filter (fun a => !p a) rest).length ≤ rest.length :=
        List.length_filter_le _ _
      simp only [List.filter_cons, hx]
      simp only [Bool.not_true, cond_false] at *
      calc (List.filter (fun a => !p a) rest).length ≤ rest.length := this
        _ < (x :: rest).length := by simp
    · have hx' : p x = false := by simpa using hx
      have hrest : rest.filter p ≠ [] := by
        simpa [List.filter_cons, hx'] using h
      have := ih hrest
      simp [List.filter_cons, hx']
      omega

theorem exists_rank_min (rank : String → Nat) (l : List String) (h : l ≠ []) :
    ∃ t ∈ l, ∀ u ∈ l, rank t ≤ rank u := by
  induction l with
  | nil => exact absurd rfl h
  | cons x rest ih =>
    rcases eq_or_ne rest [] with hr | hr
    · subst hr
      exact ⟨x, by simp, by simp⟩
    · obtain ⟨t, htm, hmin⟩ := ih hr
      by_cases hc : rank x ≤ rank t
      · refine ⟨x, by simp, ?_⟩
        intro u hu
        rcases List.mem_cons.mp hu with h' | h'
        · subst h'; exact le_rfl
        · exact le_trans hc (hmin u h')
      · refine ⟨t, List.mem_cons_of_mem _ htm, ?_⟩
        intro u hu
        rcases List.mem_cons.mp hu with h' | h'
        · subst h'; omega
        · exact hmin u h'

/-! ## Dispatch-loop invariants -/

theorem dispatchWave_completed_keys (roles : String → Option RoleSpec)
    (exec : RoleSpec → String → String → ExecOutcome) (g : TaskGraph) (st : DispatchState) :
    (keysOf (dispatchWave roles exec g st).completed).Perm
      (keysOf st.completed ++ st.pending.filter (readyPred g st.completed)) := by
  unfold dispatchWave
  simp only [keysOf_append, keysOf_map_self]
  rw [List.append_assoc]
  refine List.Perm.append_left _ ?_
  exact List.Perm.trans List.perm_append_comm (List.filter_append_perm _ _)

theorem dispatchWave_pending (roles : String → Option RoleSpec)
    (exec : RoleSpec → String → String → ExecOutcome) (g : TaskGraph) (st : DispatchState) :
    (dispatchWave roles exec g st).pending
      = st.pending.filter (fun tid => !(readyPred g st.completed tid)) := rfl

theorem dispatchWave_invoked (roles : String → Option RoleSpec)
    (exec : RoleSpec → String → String → ExecOutcome) (g : TaskGraph) (st : DispatchState) :
    (dispatchWave roles exec g st).invoked
      = st.invoked ++ (st.pending.filter (readyPred g st.completed)).filter
          (fun tid => knownRole roles g tid) := rfl

theorem dispatchWave_completed_append (roles : String → Option RoleSpec)
    (exec : RoleSpec → String → String → ExecOutcome) (g : TaskGraph) (st : DispatchState) :
    ∃ rest, (dispatchWave roles exec g st).completed = st.completed ++ rest := by
  simp only [dispatchWave, List.append_assoc]
  exact ⟨_, rfl⟩

theorem dispatchLoopF_completed_append (roles : String → Option RoleSpec)
    (exec : RoleSpec → String → String → ExecOutcome) (g : TaskGraph) :
    ∀ (fuel : Nat) (st : DispatchState),
      ∃ rest, (dispatchLoopF roles exec g fuel st).completed = st.completed ++ rest := by
  intro fuel
  induction fuel with
  | zero => intro st; exact ⟨[], by simp [dispatchLoopF]⟩
  | succ fuel ih =>
    intro st
    unfold dispatchLoopF
    by_cases h1 : st.pending.isEmpty
    · exact ⟨[], by simp [h1]⟩
    · by_cases h2 : (st.pending.filter (readyPred g st.completed)).isEmpty
      · exact ⟨[], by simp [h1, h2]⟩
      · simp only [h1, h2, if_false, Bool.false_eq_true]
        obtain ⟨r1, hr1⟩ := ih (dispatchWave roles exec g st)
        obtain ⟨r2, hr2⟩ := dispatchWave_completed_append roles exec g st
        exact ⟨r2 ++ r1, by rw [hr1, hr2, List.append_assoc]⟩

theorem dispatchLoopF_invoked_append (roles : String → Option RoleSpec)
    (exec : RoleSpec → String → String → ExecOutcome) (g : TaskGraph) :
    ∀ (fuel : Nat) (st : DispatchState),
      ∃ rest, (dispatchLoopF roles exec g fuel st).invoked = st.invoked ++ rest := by
  intro fuel
  induction fuel with
  | zero => intro st; exact ⟨[], by simp [dispatchLoopF]⟩
  | succ fuel ih =>
    intro st
    unfold dispatchLoopF
    by_cases h1 : st.pending.isEmpty
    · exact ⟨[], by simp [h1]⟩
    · by_cases h2 : (st.pending.filter (readyPred g st.completed)).isEmpty
      · exact ⟨[], by simp [h1, h2]⟩
      · simp only [h1, h2, if_false, Bool.false_eq_true]
        obtain ⟨r1, hr1⟩ := ih (dispatchWave roles exec g st)
        rw [hr1, dispatchWave_invoked]
        exact ⟨_, by rw [List.append_assoc]⟩

theorem dispatchLoopF_alookup_preserved (roles : String → Option RoleSpec)
    (exec : RoleSpec → String → String → ExecOutcome) (g : TaskGraph)
    (fuel : Nat) (st : DispatchState) {k : String} {v : AgentResult}
    (h : alookup st.completed k = some v) :
    alookup (dispatchLoopF roles exec g fuel st).completed k = some v := by
  obtain ⟨rest, hr⟩ := dispatchLoopF_completed_append roles exec g fuel st
  rw [hr, alookup_append, h]

theorem dispatchLoopF_partition (roles : String → Option RoleSpec)
    (exec : RoleSpec → String → String → ExecOutcome) (g : TaskGraph) :
    ∀ (fuel : Nat) (st : DispatchState),
      (keysOf (dispatchLoopF roles exec g fuel st).completed
        ++ (dispatchLoopF roles exec g fuel st).pending).Perm
      (keysOf st.completed ++ st.pending) := by
  intro fuel
  induction fuel with
  | zero => intro st; simp [dispatchLoopF]
  | succ fuel ih =>
    intro st
    unfold dispatchLoopF
    by_cases h1 : st.pending.isEmpty
    · simp [h1]
    · by_cases h2 : (st.pending.filter (readyPred g st.completed)).isEmpty
      · simp [h1, h2]
      · simp only [h1, h2, if_false, Bool.false_eq_true]
        refine (ih (dispatchWave roles exec g st)).trans ?_
        rw [dispatchWave_pending]
        refine ((dispatchWave_completed_keys roles exec g st).append_right _).trans ?_
        rw [List.append_assoc]
        refine List.Perm.append_left _ ?_
        exact List.filter_append_perm _ _

theorem dispatchWave_disjoint (roles : String → Option RoleSpec)
    (exec : RoleSpec → String → String → ExecOutcome) (g : TaskGraph) (st : DispatchState)
    (hd : ∀ t ∈ st.pending, t ∉ keysOf st.completed) :
    ∀ t ∈ (dispatchWave roles exec g st).pending,
      t ∉ keysOf (dispatchWave roles exec g st).completed := by
  intro t ht
  rw [dispatchWave_pending] at ht
  have htp : t ∈ st.pending := List.mem_of_mem_filter ht
  have hnr : readyPred g st.completed t = false := by
    have := List.of_mem_filter ht
    simpa using this
  intro hmem
  have hperm := dispatchWave_completed_keys roles exec g st
  rcases List.mem_append.mp (hperm.mem_iff.mp hmem) with h | h
  · exact hd t htp h
  · have := List.of_mem_filter h
    rw [hnr] at this
    simp at this

theorem dispatchLoopF_disjoint (roles : String → Option RoleSpec)
    (exec : RoleSpec → String → String → ExecOutcome) (g : TaskGraph) :
    ∀ (fuel : Nat) (st : DispatchState),
      (∀ t ∈ st.pending, t ∉ keysOf st.completed) →
      ∀ t ∈ (dispatchLoopF roles exec g fuel st).pending,
        t ∉ keysOf (dispatchLoopF roles exec g fuel st).completed := by
  intro fuel
  induction fuel with
  | zero => intro st hd; simpa [dispatchLoopF] using hd
  | succ fuel ih =>
    intro st hd
    unfold dispatchLoopF
    by_cases h1 : st.pending.isEmpty
    · simpa [h1] using hd
    · by_cases h2 : (st.pending.filter (readyPred g st.completed)).isEmpty
      · simpa [h1, h2] using hd
      · simp only [h1, h2, if_false, Bool.false_eq_true]
        exact ih (dispatchWave roles exec g st) (dispatchWave_disjoint roles exec g st hd)

theorem dispatchLoopF_fixpoint (roles : String → Option RoleSpec)
    (exec : RoleSpec → String → String → ExecOutcome) (g : TaskGraph) :
    ∀ (fuel : Nat) (st : DispatchState), st.pending.length < fuel →
      (dispatchLoopF roles exec g fuel st).pending.filter
        (readyPred g (dispatchLoopF roles exec g fuel st).completed) = [] := by
  intro fuel
  induction fuel with
  | zero => intro st h; omega
  | succ fuel ih =>
    intro st hlen
    unfold dispatchLoopF
    by_cases h1 : st.pending.isEmpty
    · have : st.pending = [] := by simpa using h1
      simp [h1, this]
    · by_cases h2 : (st.pending.filter (readyPred g st.completed)).isEmpty
      · simp only [h1, h2, if_false, if_true, Bool.false_eq_true]
        simpa using h2
      · simp only [h1, h2, if_false, Bool.false_eq_true]
        refine ih (dispatchWave roles exec g st) ?_
        rw [dispatchWave_pending]
        have hne : st.pending.filter (readyPred g st.completed) ≠ [] := by
          simpa using h2
        have := filter_not_length_lt st.pending (readyPred g st.completed) hne
        omega

/-- Invariant for the coverage argument: pending ids exist in the
graph, and every dependency of a pending id is either already completed
or itself pending. -/
def DispatchInv (g : TaskGraph) (st : DispatchState) : Prop :=
  (∀ t ∈ st.pending, t ∈ keysOf g) ∧
  (∀ t ∈ st.pending, ∀ d ∈ (specOf g t).depends,
     d ∈ keysOf st.completed ∨ d ∈ st.pending)

theorem dispatchLoopF_coverage (roles : String → Option RoleSpec)
    (exec : RoleSpec → String → String → ExecOutcome) (g : TaskGraph)
    (rank : String → Nat)
    (hrank : ∀ p ∈ g, ∀ d ∈ p.2.depends, rank d < rank p.1) :
    ∀ (fuel : Nat) (st : DispatchState), st.pending.length < fuel →
      DispatchInv g st → (dispatchLoopF roles exec g fuel st).pending = [] := by
  intro fuel
  induction fuel with
  | zero => intro st h; omega
  | succ fuel ih =>
    intro st hlen hinv
    unfold dispatchLoopF
    by_cases h1 : st.pending.isEmpty
    · have hp : st.pending = [] := by simpa using h1
      simp [hp]
    · have hpne : st.pending ≠ [] := by simpa using h1
      obtain ⟨t, htp, hmin⟩ := exists_rank_min rank st.pending hpne
      have htk : t ∈ keysOf g := hinv.1 t htp
      obtain ⟨spec, hspec⟩ := Option.isSome_iff_exists.mp (alookup_isSome_of_mem_keys htk)
      have hspecOf : specOf g t = spec := by simp [specOf, hspec]
      have hmemg : (t, spec) ∈ g := mem_of_alookup_eq_some hspec
      have hready : readyPred g st.completed t = true := by
        unfold readyPred
        rw [List.all_eq_true]
        intro d hd
        rw [hspecOf] at hd
        have hlt : rank d < rank t := hrank (t, spec) hmemg d hd
        rcases hinv.2 t htp d (by rw [hspecOf]; exact hd) with hc | hp
        · simpa using alookup_isSome_of_mem_keys hc
        · exact absurd (hmin d hp) (by omega)
      have h2 : ¬ (st.pending.filter (readyPred g st.completed)).isEmpty := by
        have : t ∈ st.pending.filter (readyPred g st.completed) :=
          List.mem_filter.mpr ⟨htp, hready⟩
        simpa using List.ne_nil_of_mem this
      simp only [h1, h2, if_false, Bool.false_eq_true]
      refine ih (dispatchWave roles exec g st) ?_ ?_
      · rw [dispatchWave_pending]
        have hne : st.pending.filter (readyPred g st.completed) ≠ [] := by
          simpa using h2
        have := filter_not_length_lt st.pending (readyPred g st.completed) hne
        omega
      · constructor
        · intro u hu
          rw [dispatchWave_pending] at hu
          exact hinv.1 u (List.mem_of_mem_filter hu)
        · intro u hu d hd
          rw [dispatchWave_pending] at hu
          have hup : u ∈ st.pending := List.mem_of_mem_filter hu
          rcases hinv.2 u hup d hd with hc | hp
          · left
            obtain ⟨rest, hr⟩ := dispatchWave_completed_append roles exec g st
            rw [hr, keysOf_append]
            exact List.mem_append_left _ hc
          · by_cases hrd : readyPred g st.completed d
            · left
              have : d ∈ st.pending.filter (readyPred g st.completed) :=
                List.mem_filter.mpr ⟨hp, hrd⟩
              exact (dispatchWave_completed_keys roles exec g st).mem_iff.mpr
                (List.mem_append_right _ this)
            · right
              rw [dispatchWave_pending]
              exact List.mem_filter.mpr ⟨hp, by simpa using hrd⟩

theorem dispatchLoopF_invoked_known (roles : String → Option RoleSpec)
    (exec : RoleSpec → String → String → ExecOutcome) (g : TaskGraph) :
    ∀ (fuel : Nat) (st : DispatchState),
      (∀ t ∈ st.invoked, knownRole roles g t = true) →
      ∀ t ∈ (dispatchLoopF roles exec g fuel st).invoked, knownRole roles g t = true := by
  intro fuel
  induction fuel with
  | zero => intro st hk; simpa [dispatchLoopF] using hk
  | succ fuel ih =>
    intro st hk
    unfold dispatchLoopF
    by_cases h1 : st.pending.isEmpty
    · simpa [h1] using hk
    · by_cases h2 : (st.pending.filter (readyPred g st.completed)).isEmpty
      · simpa [h1, h2] using hk
      · simp only [h1, h2, if_false, Bool.false_eq_true]
        refine ih (dispatchWave roles exec g st) ?_
        intro t ht
        rw [dispatchWave_invoked] at ht
        rcases List.mem_append.mp ht with h | h
        · exact hk t h
        · exact List.of_mem_filter h

theorem dispatchLoopF_unknown_lookup (roles : String → Option RoleSpec)
    (exec : RoleSpec → String → String → ExecOutcome) (g : TaskGraph) {tid : String}
    (hkn : knownRole roles g tid = false) :
    ∀ (fuel : Nat) (st : DispatchState),
      (∀ t ∈ st.pending, t ∉ keysOf st.completed) →
      tid ∈ keysOf (dispatchLoopF roles exec g fuel st).completed →
      tid ∉ keysOf st.completed →
      alookup (dispatchLoopF roles exec g fuel st).completed tid
        = some (unknownRoleResult g tid) := by
  intro fuel
  induction fuel with
  | zero =>
    intro st _ hmem hnot
    rw [dispatchLoopF] at hmem
    exact absurd hmem hnot
  | succ fuel ih =>
    intro st hd hmem hnot
    rw [dispatchLoopF] at hmem ⊢
    by_cases h1 : st.pending.isEmpty
    · rw [if_pos h1] at hmem
      exact absurd hmem hnot
    · rw [if_neg (by simpa using h1)] at hmem ⊢
      by_cases h2 : (st.pending.filter (readyPred g st.completed)).isEmpty
      · rw [if_pos h2] at hmem
        exact absurd hmem hnot
      · rw [if_neg (by simpa using h2)] at hmem ⊢
        by_cases hm : tid ∈ keysOf (dispatchWave roles exec g st).completed
        · have hready : tid ∈ st.pending.filter (readyPred g st.completed) := by
            rcases List.mem_append.mp
              ((dispatchWave_completed_keys roles exec g st).mem_iff.mp hm) with h | h
            · exact absurd h hnot
            · exact h
          have hunk : tid ∈ (st.pending.filter (readyPred g st.completed)).filter
              (fun t => !(knownRole roles g t)) :=
            List.mem_filter.mpr ⟨hready, by simp [hkn]⟩
          have hlook : alookup (dispatchWave roles exec g st).completed tid
              = some (unknownRoleResult g tid) := by
            show alookup (st.completed
              ++ ((st.pending.filter (readyPred g st.completed)).filter
                  (fun t => !(knownRole roles g t))).map
                  (fun t => (t, unknownRoleResult g t))
              ++ ((st.pending.filter (readyPred g st.completed)).filter
                  (fun t => knownRole roles g t)).map
                  (fun t => (t, runTask roles exec g t))) tid = _
            rw [List.append_assoc, alookup_append,
              alookup_eq_none_of_not_mem_keys hnot, alookup_append,
              alookup_map_self _ hunk]
          exact dispatchLoopF_alookup_preserved roles exec g fuel _ hlook
        · exact ih (dispatchWave roles exec g st)
            (dispatchWave_disjoint roles exec g st hd) hmem hm

theorem dispatchLoopF_invoked_complete (roles : String → Option RoleSpec)
    (exec : RoleSpec → String → String → ExecOutcome) (g : TaskGraph) {tid : String}
    (hq : knownRole roles g tid = true) :
    ∀ (fuel : Nat) (st : DispatchState),
      tid ∈ keysOf (dispatchLoopF roles exec g fuel st).completed →
      tid ∉ keysOf st.completed →
      tid ∈ (dispatchLoopF roles exec g fuel st).invoked := by
  intro fuel
  induction fuel with
  | zero =>
    intro st hmem hnot
    rw [dispatchLoopF] at hmem
    exact absurd hmem hnot
  | succ fuel ih =>
    intro st hmem hnot
    rw [dispatchLoopF] at hmem ⊢
    by_cases h1 : st.pending.isEmpty
    · rw [if_pos h1] at hmem
      exact absurd hmem hnot
    · rw [if_neg (by simpa using h1)] at hmem ⊢
      by_cases h2 : (st.pending.filter (readyPred g st.completed)).isEmpty
      · rw [if_pos h2] at hmem
        exact absurd hmem hnot
      · rw [if_neg (by simpa using h2)] at hmem ⊢
        by_cases hm : tid ∈ keysOf (dispatchWave roles exec g st).completed
        · have hready : tid ∈ st.pending.filter (readyPred g st.completed) := by
            rcases List.mem_append.mp
              ((dispatchWave_completed_keys roles exec g st).mem_iff.mp hm) with h | h
            · exact absurd h hnot
            · exact h
          have hinv : tid ∈ (dispatchWave roles exec g st).invoked := by
            rw [dispatchWave_invoked]
            exact List.mem_append_right _ (List.mem_filter.mpr ⟨hready, hq⟩)
          obtain ⟨rest, hr⟩ :=
            dispatchLoopF_invoked_append roles exec g fuel (dispatchWave roles exec g st)
          rw [hr]
          exact List.mem_append_left _ hinv
        · exact ih (dispatchWave roles exec g st) hmem hm

/-! ## Shared dispatch-level helpers -/

theorem dispatchFull_inv_init (g : TaskGraph) (hclosed : ClosedDeps g) :
    DispatchInv g ⟨[], keysOf g, []⟩ := by
  constructor
  · intro t ht
    exact ht
  · intro t ht d hd
    right
    obtain ⟨spec, hspec⟩ := Option.isSome_iff_exists.mp (alookup_isSome_of_mem_keys ht)
    have hso : specOf g t = spec := by simp [specOf, hspec]
    rw [hso] at hd
    exact hclosed (t, spec) (mem_of_alookup_eq_some hspec) d hd

theorem dispatchFull_pending_empty (roles : String → Option RoleSpec)
    (exec : RoleSpec → String → String → ExecOutcome) (g : TaskGraph)
    (hclosed : ClosedDeps g) (hacyc : Acyclic g) :
    (dispatchFull roles exec g).pending = [] := by
  obtain ⟨rank, hrank⟩ := hacyc
  exact dispatchLoopF_coverage roles exec g rank hrank _ _ (Nat.lt_succ_self _)
    (dispatchFull_inv_init g hclosed)

theorem dispatchFull_keys_perm (roles : String → Option RoleSpec)
    (exec : RoleSpec → String → String → ExecOutcome) (g : TaskGraph)
    (hclosed : ClosedDeps g) (hacyc : Acyclic g) :
    (keysOf (dispatchFull roles exec g).completed).Perm (keysOf g) := by
  have hpart := dispatchLoopF_partition roles exec g (keysOf g).length.succ ⟨[], keysOf g, []⟩
  have hemp := dispatchFull_pending_empty roles exec g hclosed hacyc
  unfold dispatchFull at hemp ⊢
  rw [hemp] at hpart
  simpa [keysOf] using hpart

/-! ## Claims about the wave dispatcher -/

/-- C1: for every task graph whose dependency relation is acyclic and
whose every dependency id names an existing task id, dispatch produces
exactly one result per task id: the key list of the returned completed
map is a permutation of the graph's id list (hence, ids being unique,
duplicate-free), and no id is left pending.  Quantified over every role
catalog and every executor behaviour. -/
theorem c1_dispatch_visits_every_id_once (roles : String → Option RoleSpec)
    (exec : RoleSpec → String → String → ExecOutcome) (g : TaskGraph)
    (hnd : (keysOf g).Nodup) (hclosed : ClosedDeps g) (hacyc : Acyclic g) :
    (keysOf (dispatchFull roles exec g).completed).Perm (keysOf g)
      ∧ (keysOf (dispatchFull roles exec g).completed).Nodup
      ∧ (dispatchFull roles exec g).pending = [] := by
  have hperm := dispatchFull_keys_perm roles exec g hclosed hacyc
  exact ⟨hperm, hperm.nodup_iff.mpr hnd,
    dispatchFull_pending_empty roles exec g hclosed hacyc⟩

/-- Witness for C1 on Scenario A's two-task chain. -/
theorem c1_witness :
    (keysOf (dispatchFull demoRoles demoExec graphA).completed).Perm (keysOf graphA)
      ∧ (keysOf (dispatchFull demoRoles demoExec graphA).completed).Nodup
      ∧ (dispatchFull demoRoles demoExec graphA).pending = [] :=
  c1_dispatch_visits_every_id_once demoRoles demoExec graphA (by decide) (by decide)
    ⟨fun s => if s = "t2" then 1 else 0, by decide⟩

/-- C2: dispatch always halts and returns (the embedding is a total
function); the returned completed map together with the unresolved
pending ids partitions the graph's id set, the blocked ids are absent
from the returned map, and at exit no pending id is ready — the loop
stopped precisely at the deadlock condition, keeping the results
completed so far. -/
theorem c2_deadlock_partial_results (roles : String → Option RoleSpec)
    (exec : RoleSpec → String → String → ExecOutcome) (g : TaskGraph) :
    (keysOf (dispatchFull roles exec g).completed
        ++ (dispatchFull roles exec g).pending).Perm (keysOf g)
      ∧ (∀ t ∈ (dispatchFull roles exec g).pending,
          t ∉ keysOf (dispatchFull roles exec g).completed)
      ∧ (dispatchFull roles exec g).pending.filter
          (readyPred g (dispatchFull roles exec g).completed) = [] := by
  refine ⟨?_, ?_, ?_⟩
  · have hpart := dispatchLoopF_partition roles exec g (keysOf g).length.succ ⟨[], keysOf g, []⟩
    simpa [dispatchFull, keysOf] using hpart
  · exact dispatchLoopF_disjoint roles exec g _ _ (by simp [keysOf])
  · exact dispatchLoopF_fixpoint roles exec g _ _ (Nat.lt_succ_self _)

/-- Witness for C2 on Scenario D's two-cycle: `t1` stays unresolved and
absent from the results, and no remaining id is ready. -/
theorem c2_witness :
    "t1" ∉ keysOf (dispatchFull demoRoles demoExec graphCycle).completed
      ∧ (dispatchFull demoRoles demoExec graphCycle).pending.filter
          (readyPred graphCycle (dispatchFull demoRoles demoExec graphCycle).completed) = [] :=
  ⟨(c2_deadlock_partial_results demoRoles demoExec graphCycle).2.1 "t1" (by decide),
   (c2_deadlock_partial_results demoRoles demoExec graphCycle).2.2⟩

/-- C6: a task naming a role outside the catalog is recorded with
`status = "error"` and an output that names the unknown role, and no
Agent-Executor coroutine is ever launched for it (its id never enters
the launch list).  Quantified over every executor, so sibling tasks'
results are whatever the executor yields, unaffected by this task. -/
theorem c6_unknown_role_rejected (roles : String → Option RoleSpec)
    (exec : RoleSpec → String → String → ExecOutcome) (g : TaskGraph)
    (tid : String) (spec : TaskSpec)
    (hnd : (keysOf g).Nodup) (hclosed : ClosedDeps g) (hacyc : Acyclic g)
    (hmem : (tid, spec) ∈ g) (hrole : roles spec.role = none) :
    alookup (dispatchFull roles exec g).completed tid
      = some ⟨spec.role, tid, spec.task,
          "Error: Unknown role '" ++ spec.role ++ "'", "error", 0⟩
      ∧ tid ∉ (dispatchFull roles exec g).invoked := by
  have hlookg : alookup g tid = some spec := alookup_eq_some_of_mem_nodup hnd hmem
  have hspecOf : specOf g tid = spec := by simp [specOf, hlookg]
  have hkn : knownRole roles g tid = false := by simp [knownRole, hspecOf, hrole]
  have htk : tid ∈ keysOf g := List.mem_map_of_mem Prod.fst hmem
  have hperm := dispatchFull_keys_perm roles exec g hclosed hacyc
  have hmemc : tid ∈ keysOf (dispatchFull roles exec g).completed := hperm.mem_iff.mpr htk
  constructor
  · have h := dispatchLoopF_unknown_lookup roles exec g hkn (keysOf g).length.succ
      ⟨[], keysOf g, []⟩ (by simp [keysOf]) hmemc (by simp [keysOf])
    simp only [unknownRoleResult, hspecOf] at h
    exact h
  · intro hin
    have := dispatchLoopF_invoked_known roles exec g (keysOf g).length.succ
      ⟨[], keysOf g, []⟩ (by simp) tid hin
    rw [hkn] at this
    exact absurd this (by simp)

/-- Witness for C6 on the `ghost` graph of Scenario C. -/
theorem c6_witness :
    alookup (dispatchFull demoRoles demoExec graphGhost).completed "t1"
      = some ⟨"ghost", "t1", "x", "Error: Unknown role '" ++ "ghost" ++ "'", "error", 0⟩
      ∧ "t1" ∉ (dispatchFull demoRoles demoExec graphGhost).invoked :=
  c6_unknown_role_rejected demoRoles demoExec graphGhost "t1" ⟨"ghost", "x", []⟩
    (by decide) (by decide) ⟨fun s => if s = "t2" then 1 else 0, by decide⟩
    (by decide) (by decide)

/-- C9: in a well-formed graph every task whose role is in the catalog
is launched against the Agent Executor, for EVERY executor behaviour
and role catalog — in particular when its dependencies' results carry
`status = "error"`/`"timeout"` or are unknown-role rejections, since
readiness only tests presence in the completed map, never the status.
A failed dependency therefore never blocks its dependents. -/
theorem c9_failed_dependency_not_blocking (roles : String → Option RoleSpec)
    (exec : RoleSpec → String → String → ExecOutcome) (g : TaskGraph)
    (tid : String) (spec : TaskSpec) (r : RoleSpec)
    (hnd : (keysOf g).Nodup) (hclosed : ClosedDeps g) (hacyc : Acyclic g)
    (hmem : (tid, spec) ∈ g) (hrole : roles spec.role = some r) :
    tid ∈ (dispatchFull roles exec g).invoked := by
  have hlookg : alookup g tid = some spec := alookup_eq_some_of_mem_nodup hnd hmem
  have hspecOf : specOf g tid = spec := by simp [specOf, hlookg]
  have hq : knownRole roles g tid = true := by simp [knownRole, hspecOf, hrole]
  have hperm := dispatchFull_keys_perm roles exec g hclosed hacyc
  exact dispatchLoopF_invoked_complete roles exec g hq _ _
    (hperm.mem_iff.mpr (List.mem_map_of_mem Prod.fst hmem)) (by simp [keysOf])

/-- Witness for C9: `t2` (known role) depends on `t1`, whose result is
an unknown-role rejection, and the executor always raises — `t2` is
still launched. -/
theorem c9_witness :
    "t2" ∈ (dispatchFull demoRoles demoExecFail graphGhost).invoked :=
  c9_failed_dependency_not_blocking demoRoles demoExecFail graphGhost "t2"
    ⟨"researcher", "y", ["t1"]⟩ demoRole (by decide) (by decide)
    ⟨fun s => if s = "t2" then 1 else 0, by decide⟩ (by decide) (by decide)

/-! ## Claims about the result merger -/

/-- C7: when the results map has exactly one entry, merge returns that
entry's output unchanged and issues no synthesis model call (the
instrumentation flag stays `false`), for every provider behaviour. -/
theorem c7_merge_identity (chat : List Msg → ChatOutcome) (user_request : String)
    (g : TaskGraph) (tid : String) (r : AgentResult) :
    mergeT chat user_request g [(tid, r)] = (Except.ok r.output, false) := by
  simp [mergeT]

/-- Counterexample to C4 as stated: with two results and a synthesis
call that raises, `_merge` propagates the exception to its caller
instead of returning the failure sentinel — `_merge` has no try/except
around `provider.chat`. -/
theorem c4_counterexample :
    merge chatBoom "req" graphA [("a", resA), ("b", resB)] = Except.error "boom" := rfl

/-- C4 (amended): with more than one result, if the synthesis model
call RETURNS but its content is `None` or empty, merge yields the fixed
failure sentinel and does not raise; an exception raised by the
synthesis call itself, however, propagates to the caller. -/
theorem c4_merge_empty_content_sentinel (chat : List Msg → ChatOutcome)
    (user_request : String) (g : TaskGraph) (results : List (String × AgentResult))
    (hlen : 1 < results.length) :
    (∀ resp, chat (mergeMsgs user_request results) = .ok resp →
       (resp.content = none ∨ resp.content = some "") →
       merge chat user_request g results = Except.ok "(Failed to synthesize results)")
    ∧ (∀ e, chat (mergeMsgs user_request results) = .exn e →
       merge chat user_request g results = Except.error e) := by
  have hne : ¬ results.length = 1 := by omega
  constructor
  · intro resp hresp hcontent
    rcases hcontent with h | h <;> simp [merge, mergeT, hne, hresp, h]
  · intro e he
    simp [merge, mergeT, hne, he]

/-- Witness for the amended C4 at a concrete two-result map and a
provider returning `content = None`. -/
theorem c4_witness :
    merge chatNone "req" graphA [("a", resA), ("b", resB)]
      = Except.ok "(Failed to synthesize results)" :=
  (c4_merge_empty_content_sentinel chatNone "req" graphA
    [("a", resA), ("b", resB)] (by decide)).1 ⟨none, []⟩ rfl (Or.inl rfl)

/-! ## Conversation-runtime lemmas and claims -/

theorem execOne_hist_append (cfg : SwarmCfg) (st : SAgent × Ctx × List Msg) (tc : ToolCall) :
    ∃ m, (execOne cfg st tc).2.2 = st.2.2 ++ [m] :=
  ⟨_, rfl⟩

theorem execToolCalls_hist_append (cfg : SwarmCfg) (tcs : List ToolCall) :
    ∀ st : SAgent × Ctx × List Msg,
      ∃ tail, (execToolCalls cfg tcs st).2.2 = st.2.2 ++ tail := by
  induction tcs with
  | nil => intro st; exact ⟨[], by simp [execToolCalls]⟩
  | cons tc rest ih =>
    intro st
    obtain ⟨m, hm⟩ := execOne_hist_append cfg st tc
    obtain ⟨tail, htail⟩ := ih (execOne cfg st tc)
    refine ⟨m :: tail, ?_⟩
    have hstep : execToolCalls cfg (tc :: rest) st
        = execToolCalls cfg rest (execOne cfg st tc) := rfl
    rw [hstep, htail, hm]
    simp

theorem runLoop_hist_append (cfg : SwarmCfg) :
    ∀ (fuel idx : Nat) (st : SAgent × Ctx × List Msg),
      ∃ tail, (runLoop cfg fuel idx st).2.2 = st.2.2 ++ tail := by
  intro fuel
  induction fuel with
  | zero => intro idx st; exact ⟨[], by simp [runLoop]⟩
  | succ fuel ih =>
    intro idx st
    rw [runLoop]
    split
    · exact ⟨[timeoutApology], rfl⟩
    · rename_i resp heq
      split
      · exact ⟨[Msg.assistant (resp.content.getD "") []], rfl⟩
      · obtain ⟨t1, ht1⟩ := execToolCalls_hist_append cfg resp.toolCalls
          (st.1, st.2.1, st.2.2 ++ [Msg.assistant (resp.content.getD "") resp.toolCalls])
        obtain ⟨t2, ht2⟩ := ih (idx + 1) (execToolCalls cfg resp.toolCalls
          (st.1, st.2.1, st.2.2 ++ [Msg.assistant (resp.content.getD "") resp.toolCalls]))
        refine ⟨Msg.assistant (resp.content.getD "") resp.toolCalls :: (t1 ++ t2), ?_⟩
        rw [ht2, ht1]
        simp

/-- C10: the history inside the loop only ever grows by appending: the
final internal history is the input message list followed by exactly
the messages appended during the run, and the `SwarmResponse` returns
precisely that appended suffix (`history[init_len:]`).  The embedding
treats the caller's list and context as values because the code copies
them on entry (`history = list(messages)`,
`ctx = deepcopy(context_variables or \x7b\x7d)`), so the caller's
structures are never mutated. -/
theorem c10_run_returns_exactly_appended (cfg : SwarmCfg) (agent : SAgent)
    (messages : List Msg) (context_variables : Ctx) (max_turns : Nat) :
    messages ++ (swarmRun cfg agent messages context_variables max_turns).messages
      = (runLoop cfg max_turns 0 (agent, context_variables, messages)).2.2 := by
  obtain ⟨tail, htail⟩ :=
    runLoop_hist_append cfg max_turns 0 (agent, context_variables, messages)
  have hmsg : (swarmRun cfg agent messages context_variables max_turns).messages
      = (runLoop cfg max_turns 0 (agent, context_variables, messages)).2.2.drop
          messages.length := rfl
  rw [hmsg, htail]
  simp

theorem runLoop_step_tools (cfg : SwarmCfg) (fuel idx : Nat)
    (st : SAgent × Ctx × List Msg) (resp : ChatResponse)
    (hs : cfg.script idx = .ok resp) (hnz : resp.toolCalls ≠ []) :
    runLoop cfg (fuel + 1) idx st
      = runLoop cfg fuel (idx + 1) (execToolCalls cfg resp.toolCalls
          (st.1, st.2.1, st.2.2 ++ [Msg.assistant (resp.content.getD "") resp.toolCalls])) := by
  obtain ⟨x, xs, hx⟩ := List.exists_cons_of_ne_nil hnz
  rw [runLoop, hs]
  simp [hx]

theorem runLoop_step_final (cfg : SwarmCfg) (fuel idx : Nat)
    (st : SAgent × Ctx × List Msg) (resp : ChatResponse)
    (hs : cfg.script idx = .ok resp) (hz : resp.toolCalls = []) :
    runLoop cfg (fuel + 1) idx st
      = (st.1, st.2.1, st.2.2 ++ [Msg.assistant (resp.content.getD "") []]) := by
  rw [runLoop, hs]
  simp [hz]

/-- Counterexample to C3 as stated: agent `A` carries both `go_b` and
`f2`; one model response requests `go_b` (a handoff to `B`) and then
`f2`.  Under the claim, `f2` would be looked up among `A`'s (the
previously active agent's) capabilities and would run, yielding the
tool output `"ran f2"`.  The code switches `active_agent` inside the
tool-call loop, so `f2` is looked up among `B`'s capabilities and a
not-found error message is synthesized instead. -/
theorem c3_counterexample :
    (swarmRun cfgC3 agentA [] [] 20).messages.get? 2
      = some (Msg.tool "2" "f2" ("Error: function '" ++ "f2" ++ "' not found"))
      ∧ (swarmRun cfgC3 agentA [] [] 20).messages.get? 2
      ≠ some (Msg.tool "2" "f2" "ran f2") := by
  decide

/-- C3 (amended): a handoff yielded by a capability invocation switches
the active agent IMMEDIATELY: the remaining invocations of the same
model response are looked up among the NEW agent's capabilities (here,
a name absent from the new agent's functions yields the synthesized
not-found error even though the previous agent registered it); the
turn still does not end — the loop proceeds to the next model call, and
the new agent stays active at run end. -/
theorem c3_handoff_switches_immediately (cfg : SwarmCfg) (a b : SAgent)
    (tc1 tc2 : ToolCall) (ctx : Ctx) (ms : List Msg) (c : String) (n : Nat)
    (h1 : a.functions.contains tc1.name = true)
    (h2 : cfg.impl tc1.name tc1.args ctx = RetVal.agent b)
    (h3 : b.functions.contains tc2.name = false)
    (hs0 : cfg.script 0 = ProviderEvent.ok ⟨some "", [tc1, tc2]⟩)
    (hs1 : cfg.script 1 = ProviderEvent.ok ⟨some c, []⟩) :
    (swarmRun cfg a ms ctx (n + 2)).messages
      = [Msg.assistant "" [tc1, tc2],
         Msg.tool tc1.id tc1.name ("\x7b\"handoff_to\": \"" ++ b.name ++ "\"\x7d"),
         Msg.tool tc2.id tc2.name ("Error: function '" ++ tc2.name ++ "' not found"),
         Msg.assistant c []]
      ∧ (swarmRun cfg a ms ctx (n + 2)).agent = b := by
  have h1' : tc1.name ∈ a.functions := by simpa using h1
  have h3' : tc2.name ∉ b.functions := by simpa using h3
  have e1 : execOne cfg (a, ctx, ms ++ [Msg.assistant "" [tc1, tc2]]) tc1
      = (b, ctx, (ms ++ [Msg.assistant "" [tc1, tc2]])
          ++ [Msg.tool tc1.id tc1.name ("\x7b\"handoff_to\": \"" ++ b.name ++ "\"\x7d")]) := by
    simp [execOne, h1', h2, handle_result, ctxUpdate]
  have e2 : execOne cfg (b, ctx, (ms ++ [Msg.assistant "" [tc1, tc2]])
        ++ [Msg.tool tc1.id tc1.name ("\x7b\"handoff_to\": \"" ++ b.name ++ "\"\x7d")]) tc2
      = (b, ctx, ((ms ++ [Msg.assistant "" [tc1, tc2]])
          ++ [Msg.tool tc1.id tc1.name ("\x7b\"handoff_to\": \"" ++ b.name ++ "\"\x7d")])
          ++ [Msg.tool tc2.id tc2.name ("Error: function '" ++ tc2.name ++ "' not found")]) := by
    simp [execOne, h3', handle_result, ctxUpdate]
  have hexec : execToolCalls cfg [tc1, tc2] (a, ctx, ms ++ [Msg.assistant "" [tc1, tc2]])
      = (b, ctx, ((ms ++ [Msg.assistant "" [tc1, tc2]])
          ++ [Msg.tool tc1.id tc1.name ("\x7b\"handoff_to\": \"" ++ b.name ++ "\"\x7d")])
          ++ [Msg.tool tc2.id tc2.name ("Error: function '" ++ tc2.name ++ "' not found")]) := by
    have hstep : execToolCalls cfg [tc1, tc2] (a, ctx, ms ++ [Msg.assistant "" [tc1, tc2]])
        = execOne cfg (execOne cfg (a, ctx, ms ++ [Msg.assistant "" [tc1, tc2]]) tc1) tc2 := rfl
    rw [hstep, e1, e2]
  have hrun : runLoop cfg (n + 2) 0 (a, ctx, ms)
      = (b, ctx, (((ms ++ [Msg.assistant "" [tc1, tc2]])
          ++ [Msg.tool tc1.id tc1.name ("\x7b\"handoff_to\": \"" ++ b.name ++ "\"\x7d")])
          ++ [Msg.tool tc2.id tc2.name ("Error: function '" ++ tc2.name ++ "' not found")])
          ++ [Msg.assistant c []]) := by
    rw [runLoop_step_tools cfg (n + 1) 0 (a, ctx, ms) ⟨some "", [tc1, tc2]⟩ hs0 (by simp)]
    simp only [Option.getD_some]
    rw [hexec, runLoop_step_final cfg n 1 _ ⟨some c, []⟩ hs1 rfl]
    simp only [Option.getD_some]
  constructor
  · have hmsg : (swarmRun cfg a ms ctx (n + 2)).messages
        = (runLoop cfg (n + 2) 0 (a, ctx, ms)).2.2.drop ms.length := rfl
    rw [hmsg, hrun]
    simp
  · have hag : (swarmRun cfg a ms ctx (n + 2)).agent
        = (runLoop cfg (n + 2) 0 (a, ctx, ms)).1 := rfl
    rw [hag, hrun]

/-- Witness for the amended C3 at the concrete fixture configuration. -/
theorem c3_witness :
    (swarmRun cfgC3 agentA [] [] 20).messages
      = [Msg.assistant "" [⟨"1", "go_b", ""⟩, ⟨"2", "f2", ""⟩],
         Msg.tool "1" "go_b" ("\x7b\"handoff_to\": \"" ++ "B" ++ "\"\x7d"),
         Msg.tool "2" "f2" ("Error: function '" ++ "f2" ++ "' not found"),
         Msg.assistant "done" []]
      ∧ (swarmRun cfgC3 agentA [] [] 20).agent = agentB :=
  c3_handoff_switches_immediately cfgC3 agentA agentB ⟨"1", "go_b", ""⟩ ⟨"2", "f2", ""⟩
    [] [] "done" 18 (by decide) (by decide) (by decide) (by decide) (by decide)

/-! ## Claims about the agent executor -/

/-- Counterexample to C8 as stated: a run ending in `status="timeout"`
returns WITHOUT writing anything to the Artifact Store — the
`shared_mem.write` call sits only on the success path of `run_agent`,
before the try/except returns for timeout and error skip it. -/
theorem c8_counterexample :
    (run_agent demoRole "t1" "task" ⟨[]⟩ (.ok "unused") .timeout 0 5).1.status = "timeout"
      ∧ (run_agent demoRole "t1" "task" ⟨[]⟩ (.ok "unused") .timeout 0 5).1.duration_s = 5
      ∧ memRead (run_agent demoRole "t1" "task" ⟨[]⟩ (.ok "unused") .timeout 0 5).2
          "researcher" "t1" = none := by
  decide

/-- C8 (amended): in both modes (the `use_claude_code` flag and both
inner outcomes are quantified), the wall-clock duration is recorded in
the returned result in EVERY outcome; the produced output is written to
the Artifact Store under `(role.name, task id)` before returning only
when the run ends with `status="ok"`; timeout and error runs return
with the store untouched. -/
theorem c8_duration_always_write_on_ok (role : RoleSpec) (task_id : String) (task : String)
    (mem : MemState) (runCC : InnerOutcome) (runLLM : InnerOutcome)
    (start : Int) (finish : Int) :
    (run_agent role task_id task mem runCC runLLM start finish).1.duration_s = finish - start
      ∧ ((run_agent role task_id task mem runCC runLLM start finish).1.status = "ok" →
          (run_agent role task_id task mem runCC runLLM start finish).2
            = memWrite mem role.name task_id
                (run_agent role task_id task mem runCC runLLM start finish).1.output)
      ∧ ((run_agent role task_id task mem runCC runLLM start finish).1.status ≠ "ok" →
          (run_agent role task_id task mem runCC runLLM start finish).2 = mem) := by
  cases hif : (if role.use_claude_code then runCC else runLLM) with
  | ok output => simp [run_agent, hif]
  | timeout => simp [run_agent, hif]
  | exn e => simp [run_agent, hif]

/-- Witness for the amended C8: an ok-status tool-loop run records the
duration and writes its output under `(role, task id)`. -/
theorem c8_witness :
    (run_agent demoRole "t9" "tk" ⟨[]⟩ (.exn "x") (.ok "out") 2 7).1.duration_s = 7 - 2
      ∧ (run_agent demoRole "t9" "tk" ⟨[]⟩ (.exn "x") (.ok "out") 2 7).2
          = memWrite ⟨[]⟩ demoRole.name "t9"
              (run_agent demoRole "t9" "tk" ⟨[]⟩ (.exn "x") (.ok "out") 2 7).1.output :=
  ⟨(c8_duration_always_write_on_ok demoRole "t9" "tk" ⟨[]⟩ (.exn "x") (.ok "out") 2 7).1,
   (c8_duration_always_write_on_ok demoRole "t9" "tk" ⟨[]⟩ (.exn "x") (.ok "out") 2 7).2.1
     (by decide)⟩

/-! ## Parser lemmas and claim -/

theorem validateEntry_key {k : String} {e : JsonVal} {k' : String} {v : JsonVal}
    (h : validateEntry (k, e) = some (k', v)) : k' = k := by
  cases e with
  | obj fields =>
    by_cases hc : (hasKey fields "role" && hasKey fields "task") = true
    · simp only [validateEntry, hc, if_true, Option.some.injEq] at h
      exact (congrArg Prod.fst h.symm)
    · simp [validateEntry, hc] at h
  | null => simp [validateEntry] at h
  | bool b => simp [validateEntry] at h
  | num n => simp [validateEntry] at h
  | str s => simp [validateEntry] at h
  | arr xs => simp [validateEntry] at h

theorem keysOf_filterMap_validate_subset (entries : List (String × JsonVal)) :
    ∀ t ∈ keysOf (entries.filterMap validateEntry), t ∈ keysOf entries := by
  induction entries with
  | nil => simp [keysOf]
  | cons p rest ih =>
    obtain ⟨k, x⟩ := p
    intro t ht
    cases hv : validateEntry (k, x) with
    | none =>
      rw [List.filterMap_cons, hv] at ht
      exact List.mem_cons_of_mem _ (ih t ht)
    | some q =>
      obtain ⟨k', v⟩ := q
      have hk : k' = k := validateEntry_key hv
      rw [List.filterMap_cons, hv] at ht
      rcases List.mem_cons.mp ht with h | h
      · subst hk
        simp [keysOf, h]
      · exact List.mem_cons_of_mem _ (ih t h)

theorem filterMap_validate_dropped {entries : List (String × JsonVal)}
    {tid : String} {e : JsonVal}
    (hnd : (keysOf entries).Nodup) (hm : (tid, e) ∈ entries)
    (hv : validateEntry (tid, e) = none) :
    tid ∉ keysOf (entries.filterMap validateEntry) := by
  induction entries with
  | nil => simp at hm
  | cons p rest ih =>
    obtain ⟨k, x⟩ := p
    simp only [keysOf, List.map_cons, List.nodup_cons] at hnd
    rcases List.mem_cons.mp hm with h | h
    · have hk : tid = k := congrArg Prod.fst h
      have he : e = x := congrArg Prod.snd h
      subst hk
      subst he
      rw [List.filterMap_cons, hv]
      intro hin
      exact hnd.1 (by simpa [keysOf] using keysOf_filterMap_validate_subset rest tid hin)
    · have htr : tid ∈ keysOf rest := List.mem_map_of_mem Prod.fst h
      have hk : k ≠ tid := by
        intro he
        subst he
        exact hnd.1 (by simpa [keysOf] using htr)
      have ihr := ih (by simpa [keysOf] using hnd.2) h
      rw [List.filterMap_cons]
      cases hvk : validateEntry (k, x) with
      | none => exact ihr
      | some q =>
        obtain ⟨k', v⟩ := q
        have : k' = k := validateEntry_key hvk
        subst this
        intro hin
        rcases List.mem_cons.mp hin with hh | hh
        · exact hk hh.symm
        · exact ihr hh

theorem filterMap_validate_lookup {entries : List (String × JsonVal)}
    {tid : String} {e v : JsonVal}
    (hnd : (keysOf entries).Nodup) (hm : (tid, e) ∈ entries)
    (hv : validateEntry (tid, e) = some (tid, v)) :
    alookup (entries.filterMap validateEntry) tid = some v := by
  induction entries with
  | nil => simp at hm
  | cons p rest ih =>
    obtain ⟨k, x⟩ := p
    simp only [keysOf, List.map_cons, List.nodup_cons] at hnd
    rcases List.mem_cons.mp hm with h | h
    · have hk : tid = k := congrArg Prod.fst h
      have he : e = x := congrArg Prod.snd h
      subst hk
      subst he
      rw [List.filterMap_cons, hv]
      simp [alookup]
    · have htr : tid ∈ keysOf rest := List.mem_map_of_mem Prod.fst h
      have hk : k ≠ tid := by
        intro heq
        subst heq
        exact hnd.1 (by simpa [keysOf] using htr)
      have ihr := ih (by simpa [keysOf] using hnd.2) h
      rw [List.filterMap_cons]
      cases hvk : validateEntry (k, x) with
      | none => exact ihr
      | some q =>
        obtain ⟨k', v'⟩ := q
        have : k' = k := validateEntry_key hvk
        subst this
        simpa [alookup, hk] using ihr

/-- C5: the planner's parser is tolerant, for every behaviour of the
JSON reader: (1) surrounding code fences are stripped before the reader
sees the text (parsing a fenced payload equals parsing the bare
payload, whatever the reader does); (2) a reader exception yields the
empty graph; (3) a non-object reading yields the empty graph; (4) an
entry whose value lacks a `role` or a `task` (description) field — in
particular any non-dict entry — is dropped; (5) a surviving entry
without a `depends` field receives the empty dependency list, appended
exactly as `setdefault` does. -/
theorem c5_parser_tolerant :
    (∀ loads : String → Option JsonVal,
       parse_task_graph loads "```json\nx\n```" = parse_task_graph loads "x")
    ∧ (∀ (loads : String → Option JsonVal) (content : String),
        loads (stripFences content) = none → parse_task_graph loads content = [])
    ∧ (∀ (loads : String → Option JsonVal) (content : String) (j : JsonVal),
        loads (stripFences content) = some j → (∀ fields, j ≠ JsonVal.obj fields) →
        parse_task_graph loads content = [])
    ∧ (∀ (loads : String → Option JsonVal) (content : String)
         (entries : List (String × JsonVal)) (tid : String) (e : JsonVal),
        loads (stripFences content) = some (JsonVal.obj entries) →
        (keysOf entries).Nodup → (tid, e) ∈ entries →
        (∀ fields, e = JsonVal.obj fields →
          hasKey fields "role" = false ∨ hasKey fields "task" = false) →
        tid ∉ keysOf (parse_task_graph loads content))
    ∧ (∀ (loads : String → Option JsonVal) (content : String)
         (entries : List (String × JsonVal)) (tid : String)
         (fields : List (String × JsonVal)),
        loads (stripFences content) = some (JsonVal.obj entries) →
        (keysOf entries).Nodup → (tid, JsonVal.obj fields) ∈ entries →
        hasKey fields "role" = true → hasKey fields "task" = true →
        hasKey fields "depends" = false →
        alookup (parse_task_graph loads content) tid
          = some (JsonVal.obj (fields ++ [("depends", JsonVal.arr [])]))) := by
  refine ⟨?_, ?_, ?_, ?_, ?_⟩
  · intro loads
    have h : stripFences "```json\nx\n```" = stripFences "x" := by decide
    simp [parse_task_graph, h]
  · intro loads content h
    simp [parse_task_graph, h, parseLoaded]
  · intro loads content j h hno
    rw [parse_task_graph, h]
    cases j with
    | obj fields => exact absurd rfl (hno fields)
    | null => rfl
    | bool b => rfl
    | num n => rfl
    | str s => rfl
    | arr xs => rfl
  · intro loads content entries tid e h hnd hm hmiss
    rw [parse_task_graph, h]
    have hv : validateEntry (tid, e) = none := by
      cases e with
      | obj fields =>
        rcases hmiss fields rfl with hr | ht
        · simp [validateEntry, hr]
        · simp [validateEntry, ht]
      | null => rfl
      | bool b => rfl
      | num n => rfl
      | str s => rfl
      | arr xs => rfl
    exact filterMap_validate_dropped hnd hm hv
  · intro loads content entries tid fields h hnd hm hrole htask hdeps
    rw [parse_task_graph, h]
    have hv : validateEntry (tid, JsonVal.obj fields)
        = some (tid, JsonVal.obj (fields ++ [("depends", JsonVal.arr [])])) := by
      simp [validateEntry, hrole, htask, hdeps]
    exact filterMap_validate_lookup hnd hm hv

/-- Witness for C5 at a concrete reader: the invalid entry `t2` is
dropped; the valid entry `t1` survives with `depends` defaulted. -/
theorem c5_witness :
    "t2" ∉ keysOf (parse_task_graph loadsDemo "x")
      ∧ alookup (parse_task_graph loadsDemo "x") "t1"
        = some (JsonVal.obj ([("role", JsonVal.str "coder"), ("task", JsonVal.str "do")]
            ++ [("depends", JsonVal.arr [])])) :=
  ⟨c5_parser_tolerant.2.2.2.1 loadsDemo "x" _ "t2" (JsonVal.str "bad") rfl (by decide)
      (by simp [loadsDemo]) (fun fields h => nomatch h),
   c5_parser_tolerant.2.2.2.2 loadsDemo "x" _ "t1"
      [("role", JsonVal.str "coder"), ("task", JsonVal.str "do")] rfl (by decide)
      (by simp [loadsDemo]) rfl rfl rfl⟩
